import Mathlib

/-!
Shallow embedding of the address-extraction core of
`robotoff/insights/ocr/location.py`, together with proofs of the behavioural
claims about it.  Text is modelled as `List Char`; Python slices, `str.find`,
`str.replace` and the one concrete regular expression used by the code are
modelled explicitly.
-/

namespace Robotoff

/-- Python slice `s[a:b]` for non-negative clamped bounds. -/
def pySlice (s : List Char) (a b : Nat) : List Char := (s.take b).drop a

/-- Python `str.lower` applied character-wise (the dataset names are ASCII). -/
def pyLower (s : List Char) : List Char := s.map Char.toLower

/-- `pat` occurs in `s` at position `p` (as a contiguous sublist). -/
def occursAt (pat s : List Char) (p : Nat) : Bool :=
  decide ((s.drop p).take pat.length = pat)

/-- There is a character at index `j` of `s` and it is an ASCII digit. -/
def digitAt (s : List Char) (j : Nat) : Bool :=
  match s[j]? with
  | some c => c.isDigit
  | none => false

/-- Python `s.find(pat)` restricted to a successful result: index of the first
occurrence of `pat` in `s`, or `none` (Python returns `-1`). -/
def strFind (s pat : List Char) : Option Nat :=
  (List.range (s.length + 1)).find? (fun p => occursAt pat s p)

/-- Models `unicodedata.normalize("NFKD", ·)` followed by dropping combining
marks, on the Basic Latin range plus the common French accented letters (for
each of which the NFKD decomposition is one base character plus combining
marks).  Characters outside this modelled range are kept unchanged. -/
def stripAccent (c : Char) : Char :=
  if c = 'à' ∨ c = 'â' ∨ c = 'ä' then 'a'
  else if c = 'é' ∨ c = 'è' ∨ c = 'ê' ∨ c = 'ë' then 'e'
  else if c = 'î' ∨ c = 'ï' then 'i'
  else if c = 'ô' ∨ c = 'ö' then 'o'
  else if c = 'ù' ∨ c = 'û' ∨ c = 'ü' then 'u'
  else if c = 'ÿ' then 'y'
  else if c = 'ç' then 'c'
  else if c = 'À' ∨ c = 'Â' ∨ c = 'Ä' then 'A'
  else if c = 'É' ∨ c = 'È' ∨ c = 'Ê' ∨ c = 'Ë' then 'E'
  else if c = 'Î' ∨ c = 'Ï' then 'I'
  else if c = 'Ô' ∨ c = 'Ö' then 'O'
  else if c = 'Ù' ∨ c = 'Û' ∨ c = 'Ü' then 'U'
  else if c = 'Ç' then 'C'
  else c

/-- `remove_accents` from the source: NFKD-normalise and keep only
non-combining characters. -/
def remove_accents (text : List Char) : List Char := text.map stripAccent

/-- The apostrophe character (U+0027). -/
def apos : Char := Char.ofNat 39

/-- Python `text.replace(old, new)` for single-character `old`/`new`. -/
def replaceChar (old new : Char) (s : List Char) : List Char :=
  s.map (fun c => if c = old then new else c)

/-- `AddressExtractor.prepare_text` from the source:
`text = text[:text.find("||")]` (note that Python `find` yields `-1` when the
separator is absent, so the slice then drops the final character), then
`remove_accents`, then replace apostrophes and hyphens by spaces. -/
def prepare_text (text : List Char) : List Char :=
  let t : List Char :=
    match strFind text ('|' :: '|' :: []) with
    | some i => text.take i
    | none => text.dropLast
  replaceChar '-' ' ' (replaceChar apos ' ' (remove_accents t))

/-- `City` from the source: name (lowercased), postal code, optional GPS
coordinates.  JSON numbers are modelled as rationals. -/
structure City where
  name : List Char
  postal_code : List Char
  coordinates : Option (Rat × Rat)
deriving DecidableEq

/-! ### City matcher

`AddressExtractor.find_city_names` calls the flashtext `KeywordProcessor`
(an external library that is not part of this repository's sources).
Modelled from the spec: "scan `text` left to right, producing non-overlapping
matches using leftmost match priority; when multiple gazetteer names overlap
at the same start position, prefer the longest match"; empty keywords are
never matched, and when several cities share a name the record associated to
a match is implementation-defined (here: the earliest in the list among the
longest names). -/

/-- The (nonempty) name of `c` occurs in `text` at position `p`. -/
def cityKeywordAt (text : List Char) (p : Nat) (c : City) : Bool :=
  decide (c.name ≠ []) && occursAt c.name text p

/-- Keep the city with the longer name, preferring the first on ties. -/
def pickLonger (a b : City) : City :=
  if a.name.length < b.name.length then b else a

/-- Longest keyword match at position `p`, if any. -/
def bestMatchAt (cities : List City) (text : List Char) (p : Nat) : Option City :=
  match cities.filter (cityKeywordAt text p) with
  | [] => none
  | c :: cs => some (cs.foldl pickLonger c)

/-- Left-to-right non-overlapping scan (fuel-indexed; `fuel = text.length + 1`
always suffices because each step advances the position by at least one). -/
def fcnGo (cities : List City) (text : List Char) : Nat → Nat → List (City × Nat × Nat)
  | 0, _ => []
  | fuel + 1, p =>
    if text.length ≤ p then []
    else
      match bestMatchAt cities text p with
      | some c => (c, p, p + c.name.length) :: fcnGo cities text fuel (p + c.name.length)
      | none => fcnGo cities text fuel (p + 1)

/-- `AddressExtractor.find_city_names`: all keyword matches with span info. -/
def find_city_names (cities : List City) (text : List Char) : List (City × Nat × Nat) :=
  fcnGo cities text (text.length + 1) 0

/-! ### Postal-code linker

`AddressExtractor.find_nearby_postal_code` runs
`re.search(r"(?:[^0-9]|^)({code})(?:[^0-9]|$)", sub_text)` and returns
`(match.group(), sub_start + match.start(), sub_start + match.end())` — note
that `group()`/`start()`/`end()` refer to the whole match (group 0), which
includes the non-digit boundary characters when present.  The semantics of
this one concrete pattern are embedded directly: alternations try their left
branch first, and the leftmost match wins. -/

/-- The right-boundary part `(?:[^0-9]|$)` at position `pos`: returns the end
offset of the whole match if the boundary is satisfied. -/
def rightB (s : List Char) (pos : Nat) : Option Nat :=
  match s[pos]? with
  | some c => if c.isDigit then none else some (pos + 1)
  | none => if pos = s.length then some pos else none

/-- First alternative of the left boundary: `[^0-9]` consumes the character at
`i`, the code must follow at `i + 1`. -/
def branchA (code s : List Char) (i : Nat) : Option (Nat × Nat) :=
  match s[i]? with
  | some c =>
    if c.isDigit then none
    else if occursAt code s (i + 1) = true then
      (rightB s (i + 1 + code.length)).map (fun e => (i, e))
    else none
  | none => none

/-- Second alternative of the left boundary: `^` matches the empty string at
the start of the window, the code must start at position 0. -/
def branchB (code s : List Char) (i : Nat) : Option (Nat × Nat) :=
  if i = 0 ∧ occursAt code s 0 = true then
    (rightB s code.length).map (fun e => (0, e))
  else none

/-- Attempt to match the pattern with the whole match starting at `i`. -/
def matchAt (code s : List Char) (i : Nat) : Option (Nat × Nat) :=
  match branchA code s i with
  | some r => some r
  | none => branchB code s i

/-- Scan successive start positions, as `re.search` does. -/
def searchFrom (code s : List Char) : Nat → Nat → Option (Nat × Nat)
  | 0, _ => none
  | fuel + 1, i =>
    match matchAt code s i with
    | some r => some r
    | none => searchFrom code s fuel (i + 1)

/-- `re.search` for the postal-code pattern: group-0 span of the leftmost
match, if any. -/
def reSearch (code s : List Char) : Option (Nat × Nat) :=
  searchFrom code s (s.length + 1) 0

/-- `AddressExtractor.find_nearby_postal_code` from the source: on a match,
return `(match.group(), sub_start + match.start(), sub_start + match.end())`. -/
def find_nearby_postal_code (text : List Char) (city : City) (span : Nat × Nat) :
    Option (List Char × Nat × Nat) :=
  let code := city.postal_code
  let sub_start := span.1 - 10
  let sub_end := min text.length (span.2 + 10)
  let sub_text := pySlice text sub_start sub_end
  (reSearch code sub_text).map
    (fun r => (pySlice sub_text r.1 r.2, sub_start + r.1, sub_start + r.2))

/-! ### Orchestrator -/

/-- Modelled from the spec: one OCR text annotation; the code only reads the
`locale` attribute (which may itself be absent) of the first annotation.  The
`OCRResult` dataclass lives in `robotoff/insights/ocr/dataclass.py`, which is
not among the provided sources. -/
structure TextAnnot where
  locale : Option String
deriving DecidableEq

/-- Modelled from the spec: the OCR result value consumed by the extractor,
with its ordered annotation list and the single lowercase string
(`text_annotations_str_lower` in the source) holding the full description, a
two-character `"||"` separator, and the per-word annotations. -/
structure OCRResult where
  annots : List TextAnnot
  text_str_lower : List Char
deriving DecidableEq

/-- `get_locale` from the source. -/
def get_locale (o : OCRResult) : Option String :=
  match o.annots with
  | [] => none
  | a :: _ => a.locale

/-- `AddressExtractor`: holds the gazetteer it was built from. -/
structure AddressExtractor where
  cities : List City

/-- The dictionary returned by `extract_location`. -/
structure ExtractionResult where
  cities : List (List Char × Nat × Nat)
  full_cities : List ((List Char × Nat × Nat) × (List Char × Nat × Nat))
  addresses : List (List Char)
deriving DecidableEq

/-- The `for city, *span in cities` loop of `extract_location`, producing
`full_cities` and `addresses` in order. -/
def assembleLoop (text : List Char) : List (City × Nat × Nat) →
    List ((List Char × Nat × Nat) × (List Char × Nat × Nat)) × List (List Char)
  | [] => ([], [])
  | m :: rest =>
    let r := assembleLoop text rest
    match find_nearby_postal_code text m.1 (m.2.1, m.2.2) with
    | none => r
    | some nc =>
      ((nc, (m.1.name, m.2.1, m.2.2)) :: r.1,
       pySlice text (min m.2.1 nc.2.1 - 30)
         (min text.length (max m.2.2 nc.2.2 + 30)) :: r.2)

/-- `AddressExtractor.extract_location` from the source: gate on the locale,
normalise, match cities, link postal codes, assemble addresses. -/
def extract_location (ex : AddressExtractor) (ocr : OCRResult) : ExtractionResult :=
  if get_locale ocr = some "fr" then
    let text := prepare_text ocr.text_str_lower
    let cs := find_city_names ex.cities text
    let fa := assembleLoop text cs
    { cities := cs.map (fun m => (m.1.name, m.2.1, m.2.2)),
      full_cities := fa.1,
      addresses := fa.2 }
  else { cities := [], full_cities := [], addresses := [] }

/-! ### Gazetteer loader

`load_cities_fr` gunzips and JSON-decodes the source stream (Python `gzip`
and `json` libraries), then builds `City` values and deduplicates them with
`list(set(cities))`.  The decompression/decoding front end is modelled from
the spec as an already-classified source: either the stream is not valid
gzip, or its contents are not valid JSON, or it decodes to a list of records
whose fields may individually be absent. -/

/-- The errors `load_cities_fr` can raise. -/
inductive LoadError where
  | invalidGzip
  | invalidJson
  | missingField
deriving DecidableEq

/-- The `"fields"` object of one dataset record; each attribute read by the
code may be absent, and attributes outside the `City` schema are summarised
by `ignored`. -/
structure RawFields where
  nom_de_la_commune : Option (List Char)
  code_postal : Option (List Char)
  coordonnees_gps : Option (Rat × Rat)
  ignored : Nat
deriving DecidableEq

/-- One record of the decoded JSON array; `item["fields"]` may be absent. -/
structure RawItem where
  fields : Option RawFields
deriving DecidableEq

/-- Modelled from the spec: a gazetteer source stream as classified by the
gzip/JSON front end (ill-compressed, ill-formed JSON, or a decoded array). -/
inductive CitySource where
  | corruptGzip
  | corruptJson
  | records (items : List RawItem)
deriving DecidableEq

/-- Build one `City` from a record: `City(fields["nom_de_la_commune"].lower(),
fields["code_postal"], fields.get("coordonnees_gps"))`; a missing required
key raises (`KeyError`), a missing coordinate field is `None`. -/
def cityOfItem (item : RawItem) : Except LoadError City :=
  match item.fields with
  | none => .error .missingField
  | some f =>
    match f.nom_de_la_commune, f.code_postal with
    | some nom, some cp =>
      .ok { name := pyLower nom, postal_code := cp, coordinates := f.coordonnees_gps }
    | _, _ => .error .missingField

/-- The record-building loop of `load_cities_fr`: stops at the first
malformed record. -/
def citiesOfItems : List RawItem → Except LoadError (List City)
  | [] => .ok []
  | item :: rest =>
    match cityOfItem item with
    | .error e => .error e
    | .ok c =>
      match citiesOfItems rest with
      | .error e => .error e
      | .ok cs => .ok (c :: cs)

/-- `load_cities_fr` from the source, with `list(set(cities))` modelled by
`List.dedup`. -/
def load_cities_fr (src : CitySource) : Except LoadError (List City) :=
  match src with
  | .corruptGzip => .error .invalidGzip
  | .corruptJson => .error .invalidJson
  | .records items => (citiesOfItems items).map List.dedup

/-- A record lacks the `"fields"` object or one of the two required keys. -/
def itemMissingRequired (item : RawItem) : Bool :=
  match item.fields with
  | none => true
  | some f => f.nom_de_la_commune.isNone || f.code_postal.isNone

/-! ### Basic lemmas about slices and occurrences -/

theorem pySlice_eq_drop (s : List Char) (a b : Nat) :
    pySlice s a b = (s.drop a).take (b - a) := by
  simp [pySlice, List.drop_take]

theorem pySlice_length (s : List Char) (a b : Nat) :
    (pySlice s a b).length = min b s.length - a := by
  simp [pySlice, List.length_drop, List.length_take]

theorem occursAt_iff {pat s : List Char} {p : Nat} :
    occursAt pat s p = true ↔ (s.drop p).take pat.length = pat := by
  simp [occursAt]

theorem occursAt_le {pat s : List Char} {p : Nat} (hpat : pat ≠ [])
    (h : occursAt pat s p = true) : p + pat.length ≤ s.length := by
  have h' := occursAt_iff.mp h
  have hlen : ((s.drop p).take pat.length).length = pat.length := by rw [h']
  rw [List.length_take, List.length_drop] at hlen
  have hplen : 0 < pat.length := List.length_pos.mpr hpat
  omega

theorem occursAt_slice {pat s : List Char} {p : Nat}
    (h : occursAt pat s p = true) : pySlice s p (p + pat.length) = pat := by
  rw [pySlice_eq_drop]
  have : p + pat.length - p = pat.length := by omega
  rw [this]
  exact occursAt_iff.mp h

theorem pySlice_cons {s : List Char} {a b : Nat} (ha : a < s.length) (hab : a < b) :
    pySlice s a b = s[a] :: pySlice s (a + 1) b := by
  rw [pySlice_eq_drop, pySlice_eq_drop]
  rw [List.drop_eq_getElem_cons ha]
  have hb : b - a = (b - (a + 1)) + 1 := by omega
  rw [hb, List.take_succ_cons]

theorem pySlice_split {s : List Char} {a m b : Nat} (ham : a ≤ m) (hmb : m ≤ b) :
    pySlice s a b = pySlice s a m ++ pySlice s m b := by
  rw [pySlice_eq_drop, pySlice_eq_drop, pySlice_eq_drop]
  have hb : b - a = (m - a) + (b - m) := by omega
  rw [hb, List.take_add, List.drop_drop]
  have hm : a + (m - a) = m := by omega
  rw [hm]

theorem pySlice_single {s : List Char} {a : Nat} (ha : a < s.length) :
    pySlice s a (a + 1) = [s[a]] := by
  rw [pySlice_cons ha (Nat.lt_succ_self a), pySlice_eq_drop]
  simp

theorem pySlice_empty (s : List Char) (a : Nat) : pySlice s a a = [] := by
  rw [pySlice_eq_drop]
  simp

theorem pySlice_compose {s : List Char} {ss se i e : Nat}
    (he : e ≤ se - ss) :
    pySlice (pySlice s ss se) i e = pySlice s (ss + i) (ss + e) := by
  rw [pySlice_eq_drop s ss se, pySlice_eq_drop, pySlice_eq_drop]
  rw [List.drop_take, List.drop_drop, List.take_take]
  congr 1
  omega

/-! ### Semantics of the postal-code regular expression -/

/-- A digit-boundary-valid occurrence of `code` in `s` at position `p`: the
code occurs there, and is adjacent to a digit on neither side. -/
def validOccP (code s : List Char) (p : Nat) : Prop :=
  occursAt code s p = true
  ∧ (p = 0 ∨ (0 < p ∧ digitAt s (p - 1) = false))
  ∧ (p + code.length = s.length
     ∨ (p + code.length < s.length ∧ digitAt s (p + code.length) = false))

theorem digitAt_eq_getElem {s : List Char} {j : Nat} (hj : j < s.length) :
    digitAt s j = (s[j]).isDigit := by
  simp [digitAt, List.getElem?_eq_getElem hj]

theorem rightB_some_elim {s : List Char} {pos e : Nat} (h : rightB s pos = some e) :
    (pos < s.length ∧ digitAt s pos = false ∧ e = pos + 1)
    ∨ (pos = s.length ∧ e = pos) := by
  unfold rightB at h
  cases hg : s[pos]? with
  | some c =>
    rw [hg] at h
    by_cases hd : c.isDigit
    · simp [hd] at h
    · left
      obtain ⟨hlt, hc⟩ := List.getElem?_eq_some.mp hg
      simp only [hd, if_false] at h
      refine ⟨hlt, ?_, by simpa using h.symm⟩
      rw [digitAt_eq_getElem hlt, hc]
      simpa using hd
  | none =>
    rw [hg] at h
    by_cases hpos : pos = s.length
    · right
      rw [if_pos hpos] at h
      exact ⟨hpos, (Option.some.inj h).symm⟩
    · simp [hpos] at h

theorem rightB_some_of {s : List Char} {pos : Nat}
    (h : pos = s.length ∨ (pos < s.length ∧ digitAt s pos = false)) :
    ∃ e, rightB s pos = some e := by
  rcases h with h | ⟨hlt, hd⟩
  · refine ⟨pos, ?_⟩
    unfold rightB
    rw [List.getElem?_eq_none (by omega)]
    simp [h]
  · refine ⟨pos + 1, ?_⟩
    unfold rightB
    rw [List.getElem?_eq_getElem hlt]
    rw [digitAt_eq_getElem hlt] at hd
    simp [hd]

theorem matchAt_some_elim {code s : List Char} {i a e : Nat}
    (h : matchAt code s i = some (a, e)) :
    a = i ∧
    ((∃ c, s[i]? = some c ∧ c.isDigit = false ∧ occursAt code s (i + 1) = true
        ∧ rightB s (i + 1 + code.length) = some e)
     ∨ (i = 0 ∧ occursAt code s 0 = true ∧ rightB s code.length = some e)) := by
  unfold matchAt at h
  cases hA : branchA code s i with
  | some r =>
    rw [hA] at h
    unfold branchA at hA
    cases hg : s[i]? with
    | some c =>
      rw [hg] at hA
      by_cases hd : c.isDigit
      · simp [hd] at hA
      · simp only [hd, if_false] at hA
        by_cases hocc : occursAt code s (i + 1) = true
        · rw [if_pos hocc] at hA
          obtain ⟨e', he', hre⟩ := Option.map_eq_some'.mp hA
          injection h with h'
          rw [h'] at hre
          injection hre with h1 h2
          exact ⟨h1.symm, Or.inl ⟨c, rfl, by simpa using hd, hocc, by rw [← h2]; exact he'⟩⟩
        · simp [hocc] at hA
    | none =>
      rw [hg] at hA
      exact absurd hA (by simp)
  | none =>
    rw [hA] at h
    unfold branchB at h
    by_cases hb : i = 0 ∧ occursAt code s 0 = true
    · rw [if_pos hb] at h
      obtain ⟨hi0, hocc0⟩ := hb
      obtain ⟨e', he', hre⟩ := Option.map_eq_some'.mp h
      injection hre with h1 h2
      exact ⟨by omega, Or.inr ⟨hi0, hocc0, by rw [← h2]; exact he'⟩⟩
    · simp [hb] at h

/-- Soundness of one match attempt: a successful match starting at `i`
witnesses a boundary-valid occurrence of the code, whose position and whole
match end are characterised exactly. -/
theorem matchAt_some_valid {code s : List Char} {i a e : Nat}
    (h : matchAt code s i = some (a, e)) :
    a = i ∧
    ∃ p, validOccP code s p
      ∧ ((p = i + 1 ∧ ∃ c, s[i]? = some c ∧ c.isDigit = false) ∨ (p = 0 ∧ i = 0))
      ∧ ((e = p + code.length ∧ p + code.length = s.length)
         ∨ (e = p + code.length + 1 ∧ p + code.length < s.length
            ∧ digitAt s (p + code.length) = false)) := by
  obtain ⟨hai, hcases⟩ := matchAt_some_elim h
  refine ⟨hai, ?_⟩
  rcases hcases with ⟨c, hg, hcd, hocc, hrb⟩ | ⟨hi0, hocc, hrb⟩
  · refine ⟨i + 1, ?_, Or.inl ⟨rfl, c, hg, hcd⟩, ?_⟩
    · obtain ⟨hlt, hc⟩ := List.getElem?_eq_some.mp hg
      refine ⟨hocc, Or.inr ⟨by omega, ?_⟩, ?_⟩
      · have : i + 1 - 1 = i := by omega
        rw [this, digitAt_eq_getElem hlt, hc, hcd]
      · rcases rightB_some_elim hrb with ⟨hlt', hd', _⟩ | ⟨heq, _⟩
        · exact Or.inr ⟨by omega, by convert hd' using 2⟩
        · exact Or.inl (by omega)
    · rcases rightB_some_elim hrb with ⟨hlt', hd', he⟩ | ⟨heq, he⟩
      · refine Or.inr ⟨by omega, by omega, by convert hd' using 2⟩
      · exact Or.inl ⟨by omega, by omega⟩
  · subst hi0
    refine ⟨0, ?_, Or.inr ⟨rfl, rfl⟩, ?_⟩
    · refine ⟨hocc, Or.inl rfl, ?_⟩
      rcases rightB_some_elim hrb with ⟨hlt', hd', _⟩ | ⟨heq, _⟩
      · exact Or.inr ⟨by omega, by convert hd' using 2; omega⟩
      · exact Or.inl (by omega)
    · rcases rightB_some_elim hrb with ⟨hlt', hd', he⟩ | ⟨heq, he⟩
      · refine Or.inr ⟨by omega, by omega, by convert hd' using 2; omega⟩
      · exact Or.inl ⟨by omega, by omega⟩

/-- Completeness at a positive position: a boundary-valid occurrence at
`p > 0` makes the match attempt at `p - 1` succeed. -/
theorem matchAt_some_of_valid_pos {code s : List Char} {p : Nat}
    (hcode : code ≠ []) (hp : 0 < p) (hv : validOccP code s p) :
    ∃ r, matchAt code s (p - 1) = some r := by
  obtain ⟨hocc, hleft, hright⟩ := hv
  have hlen : p + code.length ≤ s.length := occursAt_le hcode hocc
  have hcard : 0 < code.length := List.length_pos.mpr hcode
  have hplt : p - 1 < s.length := by omega
  have hd : digitAt s (p - 1) = false := by
    rcases hleft with h0 | ⟨_, hd⟩
    · omega
    · exact hd
  obtain ⟨e, he⟩ := @rightB_some_of s (p + code.length)
    (by rcases hright with h | ⟨h1, h2⟩
        · exact Or.inl h
        · exact Or.inr ⟨h1, h2⟩)
  refine ⟨(p - 1, e), ?_⟩
  unfold matchAt
  have hgd : (s[p - 1]).isDigit = false := by
    rw [digitAt_eq_getElem hplt] at hd
    exact hd
  have h1 : p - 1 + 1 = p := by omega
  have hA : branchA code s (p - 1) = some (p - 1, e) := by
    unfold branchA
    rw [List.getElem?_eq_getElem hplt]
    simp only [hgd, Bool.false_eq_true, if_false, h1, hocc, if_true, he, Option.map_some']
  rw [hA]

/-- Completeness at position zero. -/
theorem matchAt_some_of_valid_zero {code s : List Char}
    (hv : validOccP code s 0) : ∃ r, matchAt code s 0 = some r := by
  obtain ⟨hocc, _, hright⟩ := hv
  unfold matchAt
  cases hA : branchA code s 0 with
  | some r => exact ⟨r, rfl⟩
  | none =>
    obtain ⟨e, he⟩ := @rightB_some_of s code.length
      (by rcases hright with h | ⟨h1, h2⟩
          · exact Or.inl (by omega)
          · refine Or.inr ⟨by omega, ?_⟩
            convert h2 using 2
            omega)
    refine ⟨(0, e), ?_⟩
    unfold branchB
    rw [if_pos ⟨rfl, hocc⟩, he, Option.map_some']

theorem searchFrom_some {code s : List Char} :
    ∀ {fuel j : Nat} {r : Nat × Nat}, searchFrom code s fuel j = some r →
      ∃ i, j ≤ i ∧ matchAt code s i = some r
        ∧ ∀ k, j ≤ k → k < i → matchAt code s k = none := by
  intro fuel
  induction fuel with
  | zero => intro j r h; simp [searchFrom] at h
  | succ f ih =>
    intro j r h
    unfold searchFrom at h
    cases hm : matchAt code s j with
    | some r' =>
      rw [hm] at h
      injection h with h'
      exact ⟨j, le_refl j, by rw [hm, h'], fun k hk1 hk2 => by omega⟩
    | none =>
      rw [hm] at h
      obtain ⟨i, hi1, hi2, hi3⟩ := ih h
      refine ⟨i, by omega, hi2, fun k hk1 hk2 => ?_⟩
      rcases Nat.eq_or_lt_of_le hk1 with heq | hlt
      · rw [← heq]; exact hm
      · exact hi3 k hlt hk2

theorem searchFrom_none_of {code s : List Char}
    (h : ∀ k, matchAt code s k = none) :
    ∀ fuel j, searchFrom code s fuel j = none := by
  intro fuel
  induction fuel with
  | zero => intro j; rfl
  | succ f ih => intro j; unfold searchFrom; rw [h j]; exact ih (j + 1)

/-- Span bounds for a successful match attempt in a nonempty window. -/
theorem matchAt_some_span {code s : List Char} {i a e : Nat}
    (hs : s ≠ []) (h : matchAt code s i = some (a, e)) :
    a < e ∧ e ≤ s.length := by
  obtain ⟨hai, p, _, hpi, he⟩ := matchAt_some_valid h
  have hslen : 0 < s.length := List.length_pos.mpr hs
  rcases hpi with ⟨hp, _⟩ | ⟨hp, hi0⟩ <;>
    rcases he with ⟨he1, he2⟩ | ⟨he1, he2, _⟩ <;> omega

/-! ### Matcher, linker and loop lemmas -/

theorem foldl_pickLonger_mem : ∀ (cs : List City) (c : City), cs.foldl pickLonger c ∈ c :: cs := by
  intro cs
  induction cs with
  | nil => intro c; simp
  | cons b bs ih =>
    intro c
    have h := ih (pickLonger c b)
    simp only [List.foldl_cons]
    rcases List.mem_cons.mp h with h1 | h1
    · rw [h1]
      unfold pickLonger
      by_cases hlt : c.name.length < b.name.length
      · simp [hlt]
      · simp [hlt]
    · exact List.mem_cons.mpr (Or.inr (List.mem_cons.mpr (Or.inr h1)))

theorem bestMatchAt_some {cities : List City} {text : List Char} {p : Nat} {c : City}
    (h : bestMatchAt cities text p = some c) :
    c.name ≠ [] ∧ occursAt c.name text p = true := by
  unfold bestMatchAt at h
  cases hf : cities.filter (cityKeywordAt text p) with
  | nil => rw [hf] at h; exact absurd h (by simp)
  | cons c0 cs0 =>
    rw [hf] at h
    injection h with h'
    have hmem : c ∈ cities.filter (cityKeywordAt text p) := by
      rw [hf]
      exact h' ▸ foldl_pickLonger_mem cs0 c0
    have hk := (List.mem_filter.mp hmem).2
    unfold cityKeywordAt at hk
    simpa using hk

theorem fcnGo_spans {cities : List City} {text : List Char} :
    ∀ fuel p, ∀ m ∈ fcnGo cities text fuel p, m.2.1 < m.2.2 ∧ m.2.2 ≤ text.length := by
  intro fuel
  induction fuel with
  | zero => intro p m hm; simp [fcnGo] at hm
  | succ f ih =>
    intro p m hm
    unfold fcnGo at hm
    by_cases hp : text.length ≤ p
    · simp [hp] at hm
    · rw [if_neg hp] at hm
      cases hb : bestMatchAt cities text p with
      | some c =>
        rw [hb] at hm
        rcases List.mem_cons.mp hm with h1 | h1
        · obtain ⟨hne, hocc⟩ := bestMatchAt_some hb
          have hlen := occursAt_le hne hocc
          have hpos : 0 < c.name.length := List.length_pos.mpr hne
          subst h1
          exact ⟨by simpa using by omega, by simpa using hlen⟩
        · exact ih _ m h1
      | none =>
        rw [hb] at hm
        exact ih _ m hm

theorem find_city_names_spans {cities : List City} {text : List Char} :
    ∀ m ∈ find_city_names cities text, m.2.1 < m.2.2 ∧ m.2.2 ≤ text.length := by
  intro m hm
  exact fcnGo_spans _ _ m hm

theorem find_nearby_some_span {text : List Char} {city : City} {s0 s1 : Nat}
    {g : List Char} {a b : Nat} (h0 : s0 < s1) (h1 : s1 ≤ text.length)
    (h : find_nearby_postal_code text city (s0, s1) = some (g, a, b)) :
    a < b ∧ b ≤ text.length := by
  simp only [find_nearby_postal_code] at h
  rw [Option.map_eq_some'] at h
  obtain ⟨r, hr, hf⟩ := h
  obtain ⟨i, e⟩ := r
  simp only [Prod.mk.injEq] at hf
  obtain ⟨hg, ha, hb⟩ := hf
  obtain ⟨j, _, hm, _⟩ := searchFrom_some hr
  have hwlen : (pySlice text (s0 - 10) (min text.length (s1 + 10))).length
      = min text.length (s1 + 10) - (s0 - 10) := by
    rw [pySlice_length]
    omega
  have hwne : pySlice text (s0 - 10) (min text.length (s1 + 10)) ≠ [] := by
    rw [← List.length_pos, hwlen]
    omega
  obtain ⟨hie, hew⟩ := matchAt_some_span hwne hm
  rw [hwlen] at hew
  omega

theorem assembleLoop_eq (text : List Char) : ∀ cs : List (City × Nat × Nat),
    assembleLoop text cs =
      (cs.filterMap (fun m => (find_nearby_postal_code text m.1 (m.2.1, m.2.2)).map
          (fun nc => (nc, (m.1.name, m.2.1, m.2.2)))),
       cs.filterMap (fun m => (find_nearby_postal_code text m.1 (m.2.1, m.2.2)).map
          (fun nc => pySlice text (min m.2.1 nc.2.1 - 30)
            (min text.length (max m.2.2 nc.2.2 + 30))))) := by
  intro cs
  induction cs with
  | nil => rfl
  | cons m rest ih =>
    rw [List.filterMap_cons, List.filterMap_cons]
    show (let r := assembleLoop text rest
          match find_nearby_postal_code text m.1 (m.2.1, m.2.2) with
          | none => r
          | some nc =>
            ((nc, (m.1.name, m.2.1, m.2.2)) :: r.1,
             pySlice text (min m.2.1 nc.2.1 - 30)
               (min text.length (max m.2.2 nc.2.2 + 30)) :: r.2)) = _
    rw [ih]
    cases hn : find_nearby_postal_code text m.1 (m.2.1, m.2.2) with
    | none => rfl
    | some nc => rfl

/-! ### Loader lemmas -/

theorem cityOfItem_error_iff (item : RawItem) :
    (∃ e, cityOfItem item = .error e) ↔ itemMissingRequired item = true := by
  unfold cityOfItem itemMissingRequired
  cases hf : item.fields with
  | none => simp
  | some f =>
    cases hn : f.nom_de_la_commune <;> cases hc : f.code_postal <;>
      simp [hn, hc]

theorem citiesOfItems_error_iff : ∀ items : List RawItem,
    (∃ e, citiesOfItems items = .error e)
      ↔ ∃ item ∈ items, itemMissingRequired item = true := by
  intro items
  induction items with
  | nil => simp [citiesOfItems]
  | cons item rest ih =>
    unfold citiesOfItems
    cases hc : cityOfItem item with
    | error e =>
      simp only [hc]
      constructor
      · intro _
        exact ⟨item, by simp, (cityOfItem_error_iff item).mp ⟨e, hc⟩⟩
      · intro _
        exact ⟨e, rfl⟩
    | ok c =>
      simp only [hc]
      cases hr : citiesOfItems rest with
      | error e2 =>
        constructor
        · intro _
          obtain ⟨it, hmem, hmiss⟩ := ih.mp ⟨e2, hr⟩
          exact ⟨it, List.mem_cons.mpr (Or.inr hmem), hmiss⟩
        · intro _
          exact ⟨e2, rfl⟩
      | ok cs =>
        constructor
        · intro ⟨e, he⟩
          exact absurd he (by simp)
        · intro ⟨it, hmem, hmiss⟩
          rcases List.mem_cons.mp hmem with h1 | h1
          · obtain ⟨e, he⟩ := (cityOfItem_error_iff it).mpr hmiss
            rw [h1] at he
            rw [he] at hc
            exact absurd hc (by simp)
          · obtain ⟨e, he⟩ := ih.mpr ⟨it, h1, hmiss⟩
            rw [he] at hr
            exact absurd hr (by simp)

/-- When the code is a nonempty digit string, any occurrence starts with a
digit character of the text. -/
theorem digit_of_occurs {code w : List Char} {p : Nat}
    (hdig : ∀ c ∈ code, c.isDigit = true) (hcode : code ≠ [])
    (hocc : occursAt code w p = true) : digitAt w p = true := by
  obtain ⟨c0, rest, hc0⟩ : ∃ c0 rest, code = c0 :: rest := by
    cases code with
    | nil => exact absurd rfl hcode
    | cons x xs => exact ⟨x, xs, rfl⟩
  have ht := occursAt_iff.mp hocc
  rw [hc0] at ht
  have h0 : (w.drop p)[0]? = some c0 := by
    cases hd : w.drop p with
    | nil => rw [hd] at ht; simp at ht
    | cons x xs =>
      rw [hd] at ht
      simp only [List.length_cons, List.take_succ_cons] at ht
      injection ht with h1 _
      simp [h1]
  rw [List.getElem?_drop, Nat.add_zero] at h0
  unfold digitAt
  rw [h0]
  exact hdig c0 (by rw [hc0]; exact List.mem_cons_self c0 rest)

/-- Unfolding of `extract_location` in the French-locale case. -/
theorem extract_location_fr (ex : AddressExtractor) (ocr : OCRResult)
    (h : get_locale ocr = some "fr") :
    extract_location ex ocr =
      { cities := (find_city_names ex.cities (prepare_text ocr.text_str_lower)).map
          (fun m => (m.1.name, m.2.1, m.2.2)),
        full_cities := (find_city_names ex.cities (prepare_text ocr.text_str_lower)).filterMap
          (fun m => (find_nearby_postal_code (prepare_text ocr.text_str_lower) m.1
              (m.2.1, m.2.2)).map
            (fun nc => (nc, (m.1.name, m.2.1, m.2.2)))),
        addresses := (find_city_names ex.cities (prepare_text ocr.text_str_lower)).filterMap
          (fun m => (find_nearby_postal_code (prepare_text ocr.text_str_lower) m.1
              (m.2.1, m.2.2)).map
            (fun nc => pySlice (prepare_text ocr.text_str_lower)
              (min m.2.1 nc.2.1 - 30)
              (min (prepare_text ocr.text_str_lower).length (max m.2.2 nc.2.2 + 30)))) } := by
  unfold extract_location
  rw [if_pos h]
  simp only [assembleLoop_eq]

/-- Unfolding of `extract_location` in the gated (non-French) case. -/
theorem extract_location_not_fr (ex : AddressExtractor) (ocr : OCRResult)
    (h : ¬ get_locale ocr = some "fr") :
    extract_location ex ocr = { cities := [], full_cities := [], addresses := [] } := by
  unfold extract_location
  rw [if_neg h]

/-! ### Fixtures used by concrete witnesses and counterexamples -/

/-- The city used in concrete scenarios. -/
def parisCity : City :=
  { name := "paris".toList, postal_code := "75001".toList, coordinates := none }

/-- An extractor built from the one-city gazetteer. -/
def exFr : AddressExtractor := { cities := [parisCity] }

/-- A French-locale OCR result whose description contains a city name and a
nearby postal code. -/
def ocrFr : OCRResult :=
  { annots := [{ locale := some "fr" }],
    text_str_lower := "a paris 75001 x||rest".toList }

/-! ### Claim theorems -/

/-- Claim C2 (code bug): the spec claims `prepare` is idempotent on
already-normalized input, but the code is not: `"abc"` contains no `"||"`
separator, so `text[:text.find("||")]` evaluates to `text[:-1]` and drops the
last character on every application.  `prepare_text "abc" = "ab"` (an
already-normalized string), yet `prepare_text "ab" = "a" ≠ "ab"`. -/
theorem c2_prepare_not_idempotent :
    prepare_text "abc".toList = "ab".toList
    ∧ prepare_text (prepare_text "abc".toList) = "a".toList
    ∧ prepare_text (prepare_text "abc".toList) ≠ prepare_text "abc".toList := by
  refine ⟨by decide, by decide, by decide⟩

/-- Claim C7 (code bug): for the all-basic-Latin input `"abc"` (which contains
no separator, so its truncation at the separator is the whole three-character
string) the code returns a two-character result: length is not preserved,
because `text.find("||") = -1` makes the slice drop the last character. -/
theorem c7_prepare_length_not_preserved :
    ("abc".toList).length = 3
    ∧ strFind "abc".toList ('|' :: '|' :: []) = none
    ∧ (prepare_text "abc".toList).length = 2 := by
  refine ⟨by decide, by decide, by decide⟩

/-- Claim C10: on input containing no `"||"` separator, `prepare_text` does
not process the whole string: it accent-strips and punctuation-replaces the
input minus its final character (Python `find` returns `-1`, making the slice
upper bound `-1`), and for nonempty input the result therefore differs from
the processed whole string. -/
theorem c10_prepare_drops_last (s : List Char)
    (h : strFind s ('|' :: '|' :: []) = none) :
    prepare_text s = replaceChar '-' ' ' (replaceChar apos ' ' (remove_accents s.dropLast))
    ∧ (s ≠ [] →
        prepare_text s ≠ replaceChar '-' ' ' (replaceChar apos ' ' (remove_accents s))) := by
  have hmain : prepare_text s
      = replaceChar '-' ' ' (replaceChar apos ' ' (remove_accents s.dropLast)) := by
    unfold prepare_text
    rw [h]
  refine ⟨hmain, fun hne hcontra => ?_⟩
  have hlen1 : (prepare_text s).length = s.dropLast.length := by
    rw [hmain]
    simp [replaceChar, remove_accents]
  have hlen2 : (replaceChar '-' ' ' (replaceChar apos ' ' (remove_accents s))).length
      = s.length := by
    simp [replaceChar, remove_accents]
  rw [hcontra, hlen2] at hlen1
  have hd := List.length_dropLast s
  have hpos : 0 < s.length := List.length_pos.mpr hne
  omega

/-- Witness for C10 at the concrete input `"abc"`. -/
theorem c10_prepare_drops_last_witness :
    prepare_text "abc".toList
      = replaceChar '-' ' ' (replaceChar apos ' ' (remove_accents ("abc".toList).dropLast))
    ∧ prepare_text "abc".toList
      ≠ replaceChar '-' ' ' (replaceChar apos ' ' (remove_accents "abc".toList)) :=
  ⟨(c10_prepare_drops_last "abc".toList (by decide)).1,
   (c10_prepare_drops_last "abc".toList (by decide)).2 (by decide)⟩

/-- Claim C4: whenever the locale extracted from the OCR result is not the
two-character tag `"fr"` (including an absent annotation list, whose locale
is `none`), `extract_location` returns the empty result. -/
theorem c4_locale_gate (ex : AddressExtractor) (ocr : OCRResult)
    (h : get_locale ocr ≠ some "fr") :
    extract_location ex ocr = { cities := [], full_cities := [], addresses := [] } := by
  unfold extract_location
  rw [if_neg h]

/-- Witness for C4: an OCR result with no annotations at all and empty text. -/
theorem c4_locale_gate_witness :
    extract_location { cities := [parisCity] } { annots := [], text_str_lower := [] }
      = { cities := [], full_cities := [], addresses := [] } :=
  c4_locale_gate _ _ (by decide)

/-- Claim C8: a successfully loaded gazetteer never contains two `City`
values equal on all three fields (`list(set(cities))` removes duplicates),
and two records that agree on the three projected fields — in particular two
byte-identical records, or records differing only in fields outside the
`City` schema — collapse to a single entry. -/
theorem c8_gazetteer_dedup :
    (∀ (items : List RawItem) (out : List City),
        load_cities_fr (.records items) = .ok out → out.Nodup)
    ∧ (∀ (i1 i2 : RawItem) (f1 f2 : RawFields) (nom cp : List Char)
          (co : Option (Rat × Rat)),
        i1.fields = some f1 → i2.fields = some f2 →
        f1.nom_de_la_commune = some nom → f2.nom_de_la_commune = some nom →
        f1.code_postal = some cp → f2.code_postal = some cp →
        f1.coordonnees_gps = co → f2.coordonnees_gps = co →
        load_cities_fr (.records [i1, i2])
          = .ok [{ name := pyLower nom, postal_code := cp, coordinates := co }]) := by
  constructor
  · intro items out h
    simp only [load_cities_fr] at h
    cases hc : citiesOfItems items with
    | error e =>
      rw [hc] at h
      exact absurd h (by simp [Except.map])
    | ok l =>
      rw [hc] at h
      simp only [Except.map] at h
      injection h with h'
      rw [← h']
      exact List.nodup_dedup l
  · intro i1 i2 f1 f2 nom cp co h1 h2 h3 h4 h5 h6 h7 h8
    have hc1 : cityOfItem i1 = .ok { name := pyLower nom, postal_code := cp, coordinates := co } := by
      simp only [cityOfItem, h1, h3, h5, h7]
    have hc2 : cityOfItem i2 = .ok { name := pyLower nom, postal_code := cp, coordinates := co } := by
      simp only [cityOfItem, h2, h4, h6, h8]
    have hl : citiesOfItems [i1, i2]
        = .ok [{ name := pyLower nom, postal_code := cp, coordinates := co },
               { name := pyLower nom, postal_code := cp, coordinates := co }] := by
      simp only [citiesOfItems, hc1, hc2]
    simp only [load_cities_fr]
    rw [hl]
    simp only [Except.map]
    rw [List.dedup_cons_of_mem (by simp), List.dedup_cons_of_not_mem (by simp),
      List.dedup_nil]

/-- Witness for C8: two records identical on the three projected fields but
differing in an ignored field collapse to a single gazetteer entry. -/
theorem c8_gazetteer_dedup_witness :
    load_cities_fr (.records
        [{ fields := some { nom_de_la_commune := some "PARIS".toList,
                            code_postal := some "75001".toList,
                            coordonnees_gps := none, ignored := 0 } },
         { fields := some { nom_de_la_commune := some "PARIS".toList,
                            code_postal := some "75001".toList,
                            coordonnees_gps := none, ignored := 1 } }])
      = .ok [{ name := pyLower "PARIS".toList, postal_code := "75001".toList,
               coordinates := none }] :=
  c8_gazetteer_dedup.2 _ _ _ _ _ _ _ rfl rfl rfl rfl rfl rfl rfl rfl

/-- Claim C9: the gazetteer load fails (with a data-format error) exactly
when the stream is not valid gzip, not valid JSON, or some record lacks the
`"fields"` object or one of the two required keys (commune name, postal
code); an absent coordinate field is not among the failure causes, and a
failure carries no partial city list. -/
theorem c9_load_error_iff (src : CitySource) :
    (∃ e, load_cities_fr src = .error e)
      ↔ (src = .corruptGzip ∨ src = .corruptJson
         ∨ ∃ items, src = .records items
             ∧ ∃ item ∈ items, itemMissingRequired item = true) := by
  cases src with
  | corruptGzip =>
    constructor
    · intro _
      exact Or.inl rfl
    · intro _
      exact ⟨.invalidGzip, rfl⟩
  | corruptJson =>
    constructor
    · intro _
      exact Or.inr (Or.inl rfl)
    · intro _
      exact ⟨.invalidJson, rfl⟩
  | records items =>
    constructor
    · intro ⟨e, he⟩
      refine Or.inr (Or.inr ⟨items, rfl, ?_⟩)
      simp only [load_cities_fr] at he
      cases hc : citiesOfItems items with
      | error e2 => exact (citiesOfItems_error_iff items).mp ⟨e2, hc⟩
      | ok l =>
        rw [hc] at he
        exact absurd he (by simp [Except.map])
    · intro h
      rcases h with h | h | ⟨items2, heq, hmiss⟩
      · exact absurd h (by simp)
      · exact absurd h (by simp)
      · injection heq with h'
        subst h'
        obtain ⟨e, he⟩ := (citiesOfItems_error_iff items).mpr hmiss
        refine ⟨e, ?_⟩
        simp only [load_cities_fr]
        rw [he]
        rfl

/-- Claim C5: in the French-locale case, `addresses` holds exactly one
snippet per city match with a linked postal code — the slice of the
normalized text from `min(city start, postal start) - 30` to
`max(city end, postal end) + 30`, both bounds clipped to the text — and
`full_cities` holds exactly the linked pairs; city matches without a nearby
postal code contribute to neither. -/
theorem c5_address_assembly (ex : AddressExtractor) (ocr : OCRResult)
    (h : get_locale ocr = some "fr") :
    (extract_location ex ocr).addresses
      = (find_city_names ex.cities (prepare_text ocr.text_str_lower)).filterMap
          (fun m => (find_nearby_postal_code (prepare_text ocr.text_str_lower) m.1
              (m.2.1, m.2.2)).map
            (fun nc => pySlice (prepare_text ocr.text_str_lower)
              (min m.2.1 nc.2.1 - 30)
              (min (prepare_text ocr.text_str_lower).length (max m.2.2 nc.2.2 + 30))))
    ∧ (extract_location ex ocr).full_cities
      = (find_city_names ex.cities (prepare_text ocr.text_str_lower)).filterMap
          (fun m => (find_nearby_postal_code (prepare_text ocr.text_str_lower) m.1
              (m.2.1, m.2.2)).map
            (fun nc => (nc, (m.1.name, m.2.1, m.2.2)))) := by
  rw [extract_location_fr ex ocr h]
  exact ⟨rfl, rfl⟩

/-- Witness for C5 on a concrete scenario: one city match, one linked postal
code, one address snippet clipped to the text bounds. -/
theorem c5_address_assembly_witness :
    (extract_location exFr ocrFr).addresses = ["a paris 75001 x".toList]
    ∧ (extract_location exFr ocrFr).full_cities
      = [((" 75001 ".toList, 7, 14), ("paris".toList, 2, 7))] :=
  ⟨((c5_address_assembly exFr ocrFr rfl).1).trans (by decide),
   ((c5_address_assembly exFr ocrFr rfl).2).trans (by decide)⟩

/-- Claim C6: every span in the extraction result — the city spans of
`cities` and both the postal-code and city spans of `full_cities` — satisfies
`0 ≤ start < end ≤ len(normalized text)`; all slice arithmetic is clipped, so
no out-of-range access occurs. -/
theorem c6_span_invariant (ex : AddressExtractor) (ocr : OCRResult) :
    (∀ m ∈ (extract_location ex ocr).cities,
        m.2.1 < m.2.2 ∧ m.2.2 ≤ (prepare_text ocr.text_str_lower).length)
    ∧ (∀ fc ∈ (extract_location ex ocr).full_cities,
        (fc.1.2.1 < fc.1.2.2 ∧ fc.1.2.2 ≤ (prepare_text ocr.text_str_lower).length)
        ∧ (fc.2.2.1 < fc.2.2.2 ∧ fc.2.2.2 ≤ (prepare_text ocr.text_str_lower).length)) := by
  by_cases h : get_locale ocr = some "fr"
  · rw [extract_location_fr ex ocr h]
    constructor
    · intro m hm
      obtain ⟨m0, hm0, hf⟩ := List.mem_map.mp hm
      subst hf
      exact find_city_names_spans m0 hm0
    · intro fc hfc
      obtain ⟨m0, hm0, hmap⟩ := List.mem_filterMap.mp hfc
      rw [Option.map_eq_some'] at hmap
      obtain ⟨nc, hnc, hfc_eq⟩ := hmap
      obtain ⟨g, na, nb⟩ := nc
      obtain ⟨hcs, hcity⟩ := find_city_names_spans m0 hm0
      have hps := find_nearby_some_span hcs hcity hnc
      subst hfc_eq
      exact ⟨hps, hcs, hcity⟩
  · rw [extract_location_not_fr ex ocr h]
    exact ⟨fun m hm => absurd hm (by simp), fun fc hfc => absurd hfc (by simp)⟩

/-- Claim C3: if every occurrence of the city's (nonempty) postal code inside
the clipped search window is immediately preceded or immediately followed,
within the window, by another digit character, then
`find_nearby_postal_code` returns `None`. -/
theorem c3_digit_boundary (text : List Char) (city : City) (s0 s1 : Nat)
    (hcode : city.postal_code ≠ [])
    (hadj : ∀ p < (pySlice text (s0 - 10) (min text.length (s1 + 10))).length,
        occursAt city.postal_code (pySlice text (s0 - 10) (min text.length (s1 + 10))) p
            = true →
        (0 < p ∧ digitAt (pySlice text (s0 - 10) (min text.length (s1 + 10))) (p - 1)
            = true)
        ∨ digitAt (pySlice text (s0 - 10) (min text.length (s1 + 10)))
            (p + city.postal_code.length) = true) :
    find_nearby_postal_code text city (s0, s1) = none := by
  have hall : ∀ k, matchAt city.postal_code
      (pySlice text (s0 - 10) (min text.length (s1 + 10))) k = none := by
    intro k
    cases hm : matchAt city.postal_code
        (pySlice text (s0 - 10) (min text.length (s1 + 10))) k with
    | none => rfl
    | some r =>
      exfalso
      obtain ⟨i, e⟩ := r
      obtain ⟨_, p, hv, _, _⟩ := matchAt_some_valid hm
      obtain ⟨hocc, hleft, hright⟩ := hv
      have hple := occursAt_le hcode hocc
      have hcl : 0 < city.postal_code.length := List.length_pos.mpr hcode
      rcases hadj p (by omega) hocc with ⟨hp0, hd⟩ | hd
      · rcases hleft with h | ⟨_, hd'⟩
        · omega
        · rw [hd'] at hd
          exact absurd hd (by simp)
      · rcases hright with h | ⟨_, hd'⟩
        · have hnone : digitAt (pySlice text (s0 - 10) (min text.length (s1 + 10)))
              (p + city.postal_code.length) = false := by
            unfold digitAt
            rw [List.getElem?_eq_none (by omega)]
          rw [hnone] at hd
          exact absurd hd (by simp)
        · rw [hd'] at hd
          exact absurd hd (by simp)
  have hnone : reSearch city.postal_code
      (pySlice text (s0 - 10) (min text.length (s1 + 10))) = none :=
    searchFrom_none_of hall _ _
  show (reSearch city.postal_code
      (pySlice text (s0 - 10) (min text.length (s1 + 10)))).map
      (fun r => (pySlice (pySlice text (s0 - 10) (min text.length (s1 + 10))) r.1 r.2,
        s0 - 10 + r.1, s0 - 10 + r.2)) = none
  rw [hnone]
  rfl

/-- Witness for C3: the spec's own scenario — searching for `"75001"` in the
window `"975001"` finds only an occurrence preceded by the digit `9`, so the
linker returns `None`. -/
theorem c3_digit_boundary_witness :
    find_nearby_postal_code "975001".toList parisCity (0, 6) = none :=
  c3_digit_boundary _ _ _ _ (by decide) (by decide)

/-- Claim C1 (counterexample): the substring delimited by the span returned
by `find_nearby_postal_code` is NOT in general the city's postal code — the
code returns the offsets of regex group 0, which includes the non-digit
boundary characters.  Here it returns the span of `" 75001x"`. -/
theorem c1_linker_span_counterexample :
    find_nearby_postal_code "paris 75001x".toList parisCity (0, 5)
      = some (" 75001x".toList, 5, 12)
    ∧ pySlice "paris 75001x".toList 5 12 ≠ parisCity.postal_code := by
  refine ⟨by decide, by decide⟩

/-- Claim C1 (amended): when `find_nearby_postal_code` returns a span, that
span is the whole-regex-match (group 0) span around the FIRST digit-boundary
valid occurrence of the city's postal code in the clipped window
`[start - 10, end + 10]`, translated back to absolute offsets: it reaches one
character left of the occurrence when a (necessarily non-digit) character
precedes it inside the window, and one character right of it when one
follows; consequently the substring of the text delimited by the returned
span is the postal code with at most one non-digit character attached on
each side — not the bare postal code. -/
theorem c1_linker_span_amended (text : List Char) (city : City) (s0 s1 : Nat)
    (hcode : city.postal_code ≠ [])
    (hdig : ∀ c ∈ city.postal_code, c.isDigit = true)
    (g : List Char) (a b : Nat)
    (h : find_nearby_postal_code text city (s0, s1) = some (g, a, b)) :
    ∃ p, validOccP city.postal_code
        (pySlice text (s0 - 10) (min text.length (s1 + 10))) p
      ∧ (∀ q, q < p → ¬ validOccP city.postal_code
          (pySlice text (s0 - 10) (min text.length (s1 + 10))) q)
      ∧ a = (s0 - 10) + p - (if p = 0 then 0 else 1)
      ∧ b = (s0 - 10) + p + city.postal_code.length
            + (if p + city.postal_code.length
                = (pySlice text (s0 - 10) (min text.length (s1 + 10))).length
               then 0 else 1)
      ∧ pySlice text a b = g
      ∧ ∃ pre post, g = pre ++ city.postal_code ++ post
          ∧ pre.length ≤ 1 ∧ post.length ≤ 1
          ∧ (∀ c ∈ pre, c.isDigit = false) ∧ (∀ c ∈ post, c.isDigit = false) := by
  simp only [find_nearby_postal_code] at h
  rw [Option.map_eq_some'] at h
  obtain ⟨r, hr, hf⟩ := h
  obtain ⟨i, e⟩ := r
  simp only [Prod.mk.injEq] at hf
  obtain ⟨hg, ha, hb⟩ := hf
  set w := pySlice text (s0 - 10) (min text.length (s1 + 10)) with hw
  set n := city.postal_code.length with hn
  obtain ⟨j, hj0, hm, hmin⟩ := searchFrom_some hr
  obtain ⟨hij, p, hv, hpij, he⟩ := matchAt_some_valid hm
  subst hij
  have hwlen : w.length = min text.length (s1 + 10) - (s0 - 10) := by
    rw [hw, pySlice_length]
    omega
  have hoccp := hv.1
  have hple : p + n ≤ w.length := occursAt_le hcode hoccp
  have hcl : 0 < n := List.length_pos.mpr hcode
  have hocc_slice : pySlice w p (p + n) = city.postal_code := occursAt_slice hoccp
  have hew : e ≤ w.length := by
    rcases he with ⟨he1, he2⟩ | ⟨he1, he2, _⟩ <;> omega
  refine ⟨p, hv, ?_, ?_, ?_, ?_, ?_⟩
  · -- minimality: no boundary-valid occurrence strictly before p
    intro q hq hvq
    rcases hpij with ⟨hp, c, hgc, hcd⟩ | ⟨hp, hj0'⟩
    · rcases Nat.eq_zero_or_pos q with hq0 | hqpos
      · subst hq0
        by_cases hj0'' : i = 0
        · have h1 : digitAt w 0 = true := digit_of_occurs hdig hcode hvq.1
          have h2 : digitAt w 0 = false := by
            unfold digitAt
            rw [hj0''] at hgc
            rw [hgc]
            exact hcd
          rw [h1] at h2
          exact absurd h2 (by simp)
        · obtain ⟨r0, hr0⟩ := matchAt_some_of_valid_zero hvq
          rw [hmin 0 (by omega) (by omega)] at hr0
          exact absurd hr0 (by simp)
      · obtain ⟨r0, hr0⟩ := matchAt_some_of_valid_pos hcode hqpos hvq
        rw [hmin (q - 1) (by omega) (by omega)] at hr0
        exact absurd hr0 (by simp)
    · omega
  · -- start-offset formula
    rcases hpij with ⟨hp, _, _, _⟩ | ⟨hp, hj0'⟩
    · rw [if_neg (by omega)]
      omega
    · rw [if_pos hp]
      omega
  · -- end-offset formula
    rcases he with ⟨he1, he2⟩ | ⟨he1, he2, _⟩
    · rw [if_pos he2]
      omega
    · rw [if_neg (by omega)]
      omega
  · -- the returned offsets delimit the matched text
    have hee : e ≤ min text.length (s1 + 10) - (s0 - 10) := by omega
    rw [hw, pySlice_compose hee, ha, hb] at hg
    exact hg
  · -- shape of the matched text: the code with its boundary characters
    rcases hpij with ⟨hp, c, hgc, hcd⟩ | ⟨hp, hj0'⟩
    · obtain ⟨hjlt, hjc⟩ := List.getElem?_eq_some.mp hgc
      have hfirst : pySlice w i p = [c] := by
        have hone : pySlice w i (i + 1) = [w[i]] := pySlice_single hjlt
        rw [hjc] at hone
        rw [hp]
        exact hone
      rcases he with ⟨he1, he2⟩ | ⟨he1, he2, hd3⟩
      · refine ⟨[c], [], ?_, by simp, by simp, ?_, by simp⟩
        · rw [← hg, he1]
          rw [pySlice_split (show i ≤ p by omega) (show p ≤ p + n by omega)]
          rw [hfirst, hocc_slice]
          simp
        · intro x hx
          rw [List.mem_singleton] at hx
          rw [hx]
          exact hcd
      · have hlast : pySlice w (p + n) (p + n + 1) = [w[p + n]] := pySlice_single he2
        refine ⟨[c], [w[p + n]], ?_, by simp, by simp, ?_, ?_⟩
        · rw [← hg, he1]
          rw [pySlice_split (show i ≤ p by omega) (show p ≤ p + n + 1 by omega)]
          rw [pySlice_split (show p ≤ p + n by omega) (show p + n ≤ p + n + 1 by omega)]
          rw [hfirst, hocc_slice, hlast]
          simp
        · intro x hx
          rw [List.mem_singleton] at hx
          rw [hx]
          exact hcd
        · intro x hx
          rw [List.mem_singleton] at hx
          rw [hx]
          rw [digitAt_eq_getElem he2] at hd3
          exact hd3
    · subst hp
      rcases he with ⟨he1, he2⟩ | ⟨he1, he2, hd3⟩
      · refine ⟨[], [], ?_, by simp, by simp, by simp, by simp⟩
        rw [← hg, he1, hj0']
        rw [show (0 : Nat) + n = 0 + n from rfl]
        rw [hocc_slice]
        simp
      · have hlast : pySlice w (0 + n) (0 + n + 1) = [w[0 + n]] := pySlice_single he2
        refine ⟨[], [w[0 + n]], ?_, by simp, by simp, by simp, ?_⟩
        · rw [← hg, he1, hj0']
          rw [pySlice_split (show (0 : Nat) ≤ 0 + n by omega)
            (show 0 + n ≤ 0 + n + 1 by omega)]
          rw [hocc_slice, hlast]
          simp
        · intro x hx
          rw [List.mem_singleton] at hx
          rw [hx]
          rw [digitAt_eq_getElem he2] at hd3
          exact hd3

/-- Witness for the amended C1, at the counterexample's input: the first
boundary-valid occurrence of `"75001"` in the window is at position 6, the
returned span `(5, 12)` covers the preceding space and the following `x`, and
the delimited substring is `" 75001x"`. -/
theorem c1_linker_span_amended_witness :
    ∃ p, validOccP parisCity.postal_code
        (pySlice "paris 75001x".toList (0 - 10)
          (min ("paris 75001x".toList).length (5 + 10))) p
      ∧ (∀ q, q < p → ¬ validOccP parisCity.postal_code
          (pySlice "paris 75001x".toList (0 - 10)
            (min ("paris 75001x".toList).length (5 + 10))) q)
      ∧ 5 = (0 - 10) + p - (if p = 0 then 0 else 1)
      ∧ 12 = (0 - 10) + p + parisCity.postal_code.length
            + (if p + parisCity.postal_code.length
                = (pySlice "paris 75001x".toList (0 - 10)
                    (min ("paris 75001x".toList).length (5 + 10))).length
               then 0 else 1)
      ∧ pySlice "paris 75001x".toList 5 12 = " 75001x".toList
      ∧ ∃ pre post, " 75001x".toList = pre ++ parisCity.postal_code ++ post
          ∧ pre.length ≤ 1 ∧ post.length ≤ 1
          ∧ (∀ c ∈ pre, c.isDigit = false) ∧ (∀ c ∈ post, c.isDigit = false) :=
  c1_linker_span_amended "paris 75001x".toList parisCity 0 5 (by decide) (by decide)
    " 75001x".toList 5 12 (by decide)

end Robotoff

-- sanity checks for the basic text helpers
example : Robotoff.prepare_text "abc".toList = "ab".toList := by decide
example : Robotoff.prepare_text "àb cd||xyz".toList = "ab cd".toList := by decide
example : Robotoff.strFind "ab||c".toList ('|' :: '|' :: []) = some 2 := by decide
example : Robotoff.occursAt "75001".toList "975001".toList 1 = true := by decide
